import Mathlib

/-!
Shallow embedding of `src/main-pathOS-optimized.py` (class `DirectoryScanner`).

Paths are modelled as `String`s, file contents as `List Char` (bytes), and the
ambient operating system (directory listings, `os.access` behaviour,
`Path.absolute()` resolution, worker failures, `unlink` failures) as an
environment `Env` of oracles.  Every Python method of the scanner is translated
to a Lean function over `Env`; stateful parts (the per-worker seen-set, the
bytes written to temp files, the cleanup pass) are explicit state passing.
-/

set_option maxRecDepth 10000

/-- Number of leading newline characters of a character list. -/
def countLeadNL : List Char → Nat
  | [] => 0
  | c :: rest => if c = '\n' then countLeadNL rest + 1 else 0

/-- Number of trailing newline characters of a string. -/
def trailingNewlineCount (s : String) : Nat :=
  countLeadNL s.data.reverse

/-- POSIX test for an absolute path: the string begins with a slash
(`os.path.isabs` / `PurePosixPath.is_absolute`). -/
def isAbsolutePosix (s : String) : Bool :=
  s.data.head? = some '/'

/-- Model of `pathlib.Path.absolute()` on a POSIX platform: prepend the current
working directory to a relative path, return an absolute path unchanged.
(`absolute()` performs no symlink resolution or `..` normalisation.) -/
def posixAbsolute (cwd p : String) : String :=
  if isAbsolutePosix p then p else cwd ++ "/" ++ p

/-- Drop the last character of a string. -/
def stripLastChar (s : String) : String :=
  String.mk s.data.dropLast

/-- Test for `path_str.startswith('\\\\')` (two backslash characters),
source line 38. -/
def startsWithTwoBackslashes (s : String) : Bool :=
  match s.data with
  | '\\' :: '\\' :: _ => true
  | _ => false

/-- Path `p` lies strictly under directory `dir` (its string begins with
`dir` followed by a path separator). -/
def pathIsUnder (dir p : String) : Bool :=
  (dir ++ "/").data.isPrefixOf p.data

/-- Environment of operating-system oracles for one run of the scanner.
All filesystem behaviour the source observes is a field here. -/
structure Env where
  /-- immediate children of `base_path` as yielded by `iterdir()` (line 69) -/
  children : List String
  /-- result of `d.is_dir()` -/
  isDir : String → Bool
  /-- whether `os.access(path, os.R_OK)` raises `PermissionError`/`OSError` -/
  accessRaises : String → Bool
  /-- the Boolean result of `os.access(path, os.R_OK)`; the source computes
  it and discards it (lines 29-30) -/
  accessOk : String → Bool
  /-- entries yielded by `directory.rglob("*")` before any traversal error
  cuts the iteration short (lines 51, 57-58) -/
  rglob : String → List String
  /-- result of `str(path.absolute())`; `none` models an exception during resolution
  (lines 36, 42) -/
  absolute : String → Option String
  /-- whether `platform.system() == 'Windows'` (line 37) -/
  isWindows : Bool
  /-- result of `tempfile.gettempdir()` -/
  tempDir : String
  /-- the `num_processes` argument of `scan` (`none` = Python `None`) -/
  requested : Option Nat
  /-- result of `os.cpu_count()` (`none` = Python `None`) -/
  cpuCount : Option Nat
  /-- worker `i` raises an uncaught exception inside `_process_chunk` -/
  workerRaises : Nat → Bool
  /-- number of records worker `i` had already written when it raised -/
  workerRaisesAfter : Nat → Nat
  /-- whether `tf.unlink()` raises (lines 84-85) -/
  unlinkFails : String → Bool
  /-- the `chunk_size` (default 8192, line 16) -/
  chunkSize : Nat

/-- Translation of `DirectoryScanner._is_accessible` (lines 26-32): `os.access(path, os.R_OK)`
is evaluated but its Boolean result is discarded by the source; the method
returns `True` on any non-raising call and `False` only when the call raises. -/
def _is_accessible (env : Env) (p : String) : Bool :=
  !env.accessRaises p

/-- Translation of `DirectoryScanner._normalize_path` (lines 34-44). -/
def _normalize_path (env : Env) (p : String) : String :=
  match env.absolute p with
  | some path_str =>
    if env.isWindows then
      if startsWithTwoBackslashes path_str then
        "\\\\?\\UNC\\" ++ String.mk (path_str.data.drop 2) ++ "\n"
      else
        "\\\\?\\" ++ path_str ++ "\n"
    else
      path_str ++ "\n"
  | none => p ++ "\n"

/-- An `Env` whose path resolution is the POSIX `absolute()` (never failing)
with working directory `cwd`; the remaining oracles are inert defaults.
Used to instantiate `_normalize_path` on a POSIX platform. -/
def posixEnv (cwd : String) : Env where
  children := []
  isDir := fun _ => true
  accessRaises := fun _ => false
  accessOk := fun _ => true
  rglob := fun _ => []
  absolute := fun q => some (posixAbsolute cwd q)
  isWindows := false
  tempDir := "/tmp"
  requested := none
  cpuCount := some 1
  workerRaises := fun _ => false
  workerRaisesAfter := fun _ => 0
  unlinkFails := fun _ => false
  chunkSize := 8192

/-- The loop body of `DirectoryScanner._scan_directory` (lines 50-58): walk the
entries yielded by `rglob`, threading the worker's seen-set (`self._seen_paths`)
and collecting the records yielded.  Returns (yielded records, final seen-set). -/
def scanEntries (env : Env) : List String → List String → List String × List String
  | [], seen => ([], seen)
  | entry :: rest, seen =>
    if _is_accessible env entry then
      let normalized_path := _normalize_path env entry
      if normalized_path ∈ seen then
        scanEntries env rest seen
      else
        let r := scanEntries env rest (normalized_path :: seen)
        (normalized_path :: r.1, r.2)
    else
      scanEntries env rest seen

/-- Translation of `DirectoryScanner._scan_directory` (lines 46-58).  `env.rglob directory`
already denotes the entries yielded before any traversal error ended the
iteration (the `except` on line 57 swallows such an error). -/
def _scan_directory (env : Env) (directory : String) (seen : List String) :
    List String × List String :=
  if !_is_accessible env directory then ([], seen)
  else scanEntries env (env.rglob directory) seen

/-- The directory loop of `DirectoryScanner._process_chunk` (lines 64-66):
scan each directory of the partition in order against one shared seen-set,
concatenating the records in write order. -/
def processDirs (env : Env) : List String → List String → List String × List String
  | [], seen => ([], seen)
  | d :: rest, seen =>
    let r := _scan_directory env d seen
    let r2 := processDirs env rest r.2
    (r.1 ++ r2.1, r2.2)

/-- Records written to the temp file by `DirectoryScanner._process_chunk`
(lines 60-66).  Each worker process starts from the pickled scanner whose
`_seen_paths` is the empty set (line 20). -/
def _process_chunk (env : Env) (dirs : List String) : List String :=
  (processDirs env dirs []).1

/-- Translation of `DirectoryScanner._get_subdirectories` (lines 68-70). -/
def _get_subdirectories (env : Env) : List String :=
  env.children.filter (fun d => env.isDir d && _is_accessible env d)

/-- Model of `itertools.islice(l, start, None, step)` by countdown: `k` is the
distance to the next index to take; after taking an element the countdown
resets to `step - 1`.  Yields the elements at positions
`start, start + step, start + 2*step, …`. -/
def sliceAuxC : List α → Nat → Nat → List α
  | [], _, _ => []
  | a :: rest, step, 0 => a :: sliceAuxC rest step (step - 1)
  | _ :: rest, step, k + 1 => sliceAuxC rest step k

/-- Translation of `itertools.islice(l, start, None, step)` as used on source line 107. -/
def islice (l : List α) (start step : Nat) : List α :=
  sliceAuxC l step start

/-- The partition plan of `DirectoryScanner.scan` (lines 107-108):
`chunks = [list(islice(subdirs, i, None, num_processes)) for i in range(num_processes)]`. -/
def planChunks (subdirs : List α) (num_processes : Nat) : List (List α) :=
  (List.range num_processes).map (fun i => islice subdirs i num_processes)

/-- Records present in worker `i`'s temp file once the worker has settled:
the full `_process_chunk` output on success, or the prefix already written
when the worker raised.  In both cases `open(temp_file, 'wb')` (line 63) has
created the file. -/
def workerRecords (env : Env) (dirs : List String) (i : Nat) : List String :=
  if env.workerRaises i then (_process_chunk env dirs).take (env.workerRaisesAfter i)
  else _process_chunk env dirs

/-- UTF-8 bytes of a list of records, in write order. -/
def recordBytes (records : List String) : List Char :=
  (records.map String.data).flatten

/-- The temp-file path of partition `i` (source line 115):
`Path(tempfile.gettempdir()) / f"scan_{i}"`.  Note: directly inside the
platform temp directory. -/
def tempPath (tempDir : String) (i : Nat) : String :=
  tempDir ++ "/scan_" ++ toString i

/-- The dedicated subdirectory created by `_temp_file_manager` (line 74):
`Path(tempfile.gettempdir()) / "directory_scanner"`. -/
def scannerTempSubdir (tempDir : String) : String :=
  tempDir ++ "/directory_scanner"

/-- One pass of `iter(lambda: mm.read(chunk_size), b'')` (line 96), with
explicit fuel: each call yields the next `chunkSize` bytes until a read
returns the empty sentinel.  `fuel = bytes.length` always suffices. -/
def readChunksFuel : Nat → Nat → List Char → List (List Char)
  | 0, _, _ => []
  | fuel + 1, chunkSize, bytes =>
    if bytes.take chunkSize = [] then []
    else bytes.take chunkSize :: readChunksFuel fuel chunkSize (bytes.drop chunkSize)

/-- The chunks read from one memory-mapped temp file (line 96). -/
def readChunks (chunkSize : Nat) (bytes : List Char) : List (List Char) :=
  readChunksFuel bytes.length chunkSize bytes

/-- The single failure mode of the merge loop: `mmap.mmap(fileno, 0, …)`
raises `ValueError("cannot mmap an empty file")` on a zero-byte file. -/
inductive MergeErr where
  | mmapEmpty
deriving DecidableEq

/-- The temp-file loop of `DirectoryScanner._merge_files` (lines 90-97):
skip a non-existent file (`contents tf = none`), memory-map an existing one
(raising on an empty file), and append its chunks to the output.  Returns the
bytes written to the output file and the error, if any, that aborted the loop. -/
def mergeGo (chunkSize : Nat) (contents : String → Option (List Char)) :
    List String → List Char → List Char × Option MergeErr
  | [], acc => (acc, none)
  | tf :: rest, acc =>
    match contents tf with
    | none => mergeGo chunkSize contents rest acc
    | some bytes =>
      if bytes.isEmpty then (acc, some .mmapEmpty)
      else mergeGo chunkSize contents rest (acc ++ (readChunks chunkSize bytes).flatten)

/-- Translation of `DirectoryScanner._merge_files` (lines 88-97), over a snapshot
`contents : path → Option bytes` of the filesystem (`none` = file absent). -/
def _merge_files (chunkSize : Nat) (contents : String → Option (List Char))
    (temp_files : List String) : List Char × Option MergeErr :=
  mergeGo chunkSize contents temp_files []

/-- The `finally` block of `_temp_file_manager` (lines 80-86): for each
recorded temp file, in order, delete it if it exists and `unlink` does not
raise; a raising `unlink` is caught and the loop continues. -/
def cleanupTempFiles (unlinkFails : String → Bool) (temp_files : List String)
    (exists0 : String → Bool) : String → Bool :=
  temp_files.foldl
    (fun ex tf =>
      if ex tf && !unlinkFails tf then (fun p => if p = tf then false else ex p) else ex)
    exists0

/-- Translation of `num_processes = num_processes or os.cpu_count() or 1` (line 100);
Python treats both `None` and `0` as falsy. -/
def resolveNumProcesses (requested cpuCount : Option Nat) : Nat :=
  match requested with
  | some k => if k = 0 then (match cpuCount with | some c => if c = 0 then 1 else c | none => 1) else k
  | none => match cpuCount with | some c => if c = 0 then 1 else c | none => 1

/-- How one `scan` call terminates: a worker raised, or the merge raised. -/
inductive ScanErr where
  | workerFailed
  | mergeFailed
deriving DecidableEq

/-- Observable outcome of one `DirectoryScanner.scan` call. -/
structure ScanRun where
  /-- the call returned normally (`.ok`) or re-raised an exception -/
  result : Except ScanErr Unit
  /-- whether `logger.warning` was emitted (line 104) -/
  warned : Bool
  /-- number of `WorkerTask`s submitted to the pool (one per chunk, line 114) -/
  workersDispatched : Nat
  /-- the paths appended to `temp_files` (line 116) -/
  tempFilesCreated : List String
  /-- the dedicated temp subdirectory created on line 74-75, if the
  context manager was entered -/
  tempSubdirMade : Option String
  /-- filesystem snapshot of the temp files after all workers settled
  (`none` = file absent) -/
  filesAfterWorkers : String → Option (List Char)
  /-- bytes written to the output file, `none` if it was never opened -/
  outputWritten : Option (List Char)
  /-- which temp files still exist after the cleanup pass -/
  finalTempExists : String → Bool

/-- the `num_processes` value as resolved inside `scan` (line 100). -/
def numProcs (env : Env) : Nat :=
  resolveNumProcesses env.requested env.cpuCount

/-- The chunk list computed on lines 107-108. -/
def scanChunks (env : Env) : List (List String) :=
  planChunks (_get_subdirectories env) (numProcs env)

/-- The temp-file paths accumulated on lines 114-116 (one per chunk). -/
def scanTempFiles (env : Env) : List String :=
  (List.range (scanChunks env).length).map (tempPath env.tempDir)

/-- Snapshot of the temp files once every worker has settled: worker `i`'s
file holds the bytes of its records (`open` created the file even when zero
records were written). -/
def scanFilesAfterWorkers (env : Env) : String → Option (List Char) := fun p =>
  (((List.range (scanChunks env).length).map (fun i =>
      (tempPath env.tempDir i,
       recordBytes (workerRecords env ((scanChunks env)[i]?.getD []) i)))).lookup p)

/-- Some `future.result()` call on line 120 re-raised a worker exception. -/
def scanAnyWorkerFailed (env : Env) : Bool :=
  (List.range (scanChunks env).length).any env.workerRaises

/-- The cleanup pass over this run's temp files (all of which exist when the
`finally` block runs). -/
def scanCleanedUp (env : Env) : String → Bool :=
  cleanupTempFiles env.unlinkFails (scanTempFiles env)
    (fun p => (scanTempFiles env).contains p)

/-- The merge call on line 122. -/
def scanMerge (env : Env) : List Char × Option MergeErr :=
  _merge_files env.chunkSize (scanFilesAfterWorkers env) (scanTempFiles env)

/-- Translation of `DirectoryScanner.scan` (lines 99-122).  Three exit paths: the zero-subdir
early return (lines 103-105), a worker exception re-raised by `future.result()`
(line 120), and the merge (line 122) which either succeeds or raises; on the
latter two paths the `finally` block of `_temp_file_manager` still runs. -/
def scan (env : Env) : ScanRun :=
  if (_get_subdirectories env).isEmpty then
    { result := .ok (), warned := true, workersDispatched := 0,
      tempFilesCreated := [], tempSubdirMade := none,
      filesAfterWorkers := fun _ => none, outputWritten := none,
      finalTempExists := fun _ => false }
  else if scanAnyWorkerFailed env then
    { result := .error .workerFailed, warned := false,
      workersDispatched := (scanChunks env).length,
      tempFilesCreated := scanTempFiles env,
      tempSubdirMade := some (scannerTempSubdir env.tempDir),
      filesAfterWorkers := scanFilesAfterWorkers env,
      outputWritten := none, finalTempExists := scanCleanedUp env }
  else
    { result := match (scanMerge env).2 with
                | some _ => .error .mergeFailed
                | none => .ok (),
      warned := false,
      workersDispatched := (scanChunks env).length,
      tempFilesCreated := scanTempFiles env,
      tempSubdirMade := some (scannerTempSubdir env.tempDir),
      filesAfterWorkers := scanFilesAfterWorkers env,
      outputWritten := some (scanMerge env).1,
      finalTempExists := scanCleanedUp env }

/-- Witness environment for the output-origin claim: one accessible
subdirectory holding one entry. -/
def envC1 : Env :=
  { posixEnv "/c" with
    children := ["/r/a"],
    rglob := fun d => if d = "/r/a" then ["/r/a/x"] else [],
    requested := some 1 }

/-- Failing-input environment for the merge claim: the lone partition scans an
accessible but empty subdirectory, so worker 0 writes zero bytes — yet
`open(temp_file, 'wb')` has created the file. -/
def envC2 : Env :=
  { posixEnv "/c" with children := ["/r/a"], requested := some 1 }

/-- Witness environment for the cleanup claim: two partitions; `unlink`
raises for temp file 0 but not for temp file 1. -/
def envC7 : Env :=
  { posixEnv "/c" with
    children := ["/r/a", "/r/b"],
    rglob := fun d =>
      if d = "/r/a" then ["/r/a/x"] else if d = "/r/b" then ["/r/b/y"] else [],
    requested := some 2,
    unlinkFails := fun p => p = tempPath "/tmp" 0 }

/-- Witness environment for the empty-root claim: the root has no
subdirectories at all. -/
def envC8 : Env := posixEnv "/c"

/-- Failing-input environment for the temp-file-placement claim: a single
partition. -/
def envC9 : Env :=
  { posixEnv "/c" with
    children := ["/r/a"],
    rglob := fun d => if d = "/r/a" then ["/r/a/x"] else [],
    requested := some 1 }

/-- Witness environment for the temp-files-exist claim: one accessible
subdirectory but two requested workers, so partition 1 is empty and its
worker writes zero bytes. -/
def envC10 : Env :=
  { posixEnv "/c" with
    children := ["/r/a"],
    rglob := fun d => if d = "/r/a" then ["/r/a/x"] else [],
    requested := some 2 }

/-! ### Lemmas about trailing line terminators and POSIX absolutisation -/

theorem trailingNewlineCount_append_nl (s : String) :
    trailingNewlineCount (s ++ "\n") = trailingNewlineCount s + 1 := by
  unfold trailingNewlineCount
  rw [String.data_append]
  rw [show ("\n" : String).data = ['\n'] from rfl]
  simp [countLeadNL]

theorem trailingNewlineCount_eq_zero_append (a b : String) (hb : b.data ≠ [])
    (h : trailingNewlineCount b = 0) : trailingNewlineCount (a ++ b) = 0 := by
  unfold trailingNewlineCount at *
  rw [String.data_append, List.reverse_append]
  obtain ⟨c, l, hcl⟩ : ∃ c l, b.data.reverse = c :: l := by
    cases hbr : b.data.reverse with
    | nil => exact absurd (by simpa using hbr) hb
    | cons c l => exact ⟨c, l, rfl⟩
  rw [hcl] at h ⊢
  by_cases hc : c = '\n'
  · simp [countLeadNL, hc] at h
  · simp [countLeadNL, hc]

theorem posixAbsolute_trailCount (cwd p : String) (h : trailingNewlineCount p = 0) :
    trailingNewlineCount (posixAbsolute cwd p) = 0 := by
  unfold posixAbsolute
  split
  · exact h
  · by_cases hp : p.data = []
    · have hpe : p = "" := by
        cases p with
        | mk l => simp only at hp; simp [hp]
      subst hpe
      rw [String.append_empty]
      exact trailingNewlineCount_eq_zero_append cwd "/" (by decide) (by decide)
    · exact trailingNewlineCount_eq_zero_append (cwd ++ "/") p hp h

theorem isAbs_append (s t : String) (h : isAbsolutePosix s = true) :
    isAbsolutePosix (s ++ t) = true := by
  unfold isAbsolutePosix at *
  rw [String.data_append]
  cases hs : s.data with
  | nil => rw [hs] at h; simp at h
  | cons c l => rw [hs] at h; simp at h; simp [h]

theorem posixAbsolute_isAbs (cwd p : String) (h : isAbsolutePosix cwd = true) :
    isAbsolutePosix (posixAbsolute cwd p) = true := by
  unfold posixAbsolute
  split
  · assumption
  · exact isAbs_append _ _ (isAbs_append _ _ h)

theorem posixAbsolute_of_isAbs (cwd p : String) (h : isAbsolutePosix p = true) :
    posixAbsolute cwd p = p := by
  simp [posixAbsolute, h]

/-- C5 counterexample: a POSIX filename may itself end in a newline character
(here the absolute path `"/a\n"`); `_normalize_path` appends its terminator to
the path's string form, so the result ends in two line terminators, not
exactly one. -/
theorem normalize_one_terminator_counterexample :
    trailingNewlineCount (_normalize_path (posixEnv "/c") "/a\n") ≠ 1 := by decide

/-- C5 (amended): `_normalize_path` is total (it never raises) and returns the
resolved — or, on resolution failure, raw — path string with exactly one line
terminator appended: the result always ends in at least one terminator, and in
exactly one whenever the input path's own string form does not already end in
one. -/
theorem normalize_appends_one_terminator (env : Env) (cwd p : String) :
    (∃ body, _normalize_path env p = body ++ "\n") ∧
    1 ≤ trailingNewlineCount (_normalize_path env p) ∧
    (env.absolute p = none → _normalize_path env p = p ++ "\n") ∧
    (env.absolute = (fun q => some (posixAbsolute cwd q)) → env.isWindows = false →
      trailingNewlineCount p = 0 → trailingNewlineCount (_normalize_path env p) = 1) := by
  have hbody : ∃ body, _normalize_path env p = body ++ "\n" := by
    unfold _normalize_path
    cases habs : env.absolute p with
    | none => exact ⟨p, rfl⟩
    | some path_str =>
      by_cases hw : env.isWindows
      · by_cases h2 : startsWithTwoBackslashes path_str
        · exact ⟨"\\\\?\\UNC\\" ++ String.mk (path_str.data.drop 2), by simp [hw, h2]⟩
        · exact ⟨"\\\\?\\" ++ path_str, by simp [hw, h2, String.append_assoc]⟩
      · exact ⟨path_str, by simp [hw]⟩
  refine ⟨hbody, ?_, ?_, ?_⟩
  · obtain ⟨body, hb⟩ := hbody
    rw [hb, trailingNewlineCount_append_nl]
    omega
  · intro h
    simp [_normalize_path, h]
  · intro ha hw h0
    have : _normalize_path env p = posixAbsolute cwd p ++ "\n" := by
      simp [_normalize_path, ha, hw]
    rw [this, trailingNewlineCount_append_nl, posixAbsolute_trailCount cwd p h0]

/-- C5 witness: at the concrete POSIX path `"/a"` (which does not end in a
terminator) the normalised record ends in exactly one terminator. -/
theorem normalize_appends_one_terminator_witness :
    trailingNewlineCount (_normalize_path (posixEnv "/c") "/a") = 1 :=
  (normalize_appends_one_terminator (posixEnv "/c") "/c" "/a").2.2.2 rfl rfl (by decide)

/-- C6 counterexample: renormalising a normalised path is not the identity —
the appended terminator becomes part of the reparsed path, so a second
normalisation appends a second terminator. -/
theorem normalize_idempotence_counterexample :
    _normalize_path (posixEnv "/c") (_normalize_path (posixEnv "/c") "/a") ≠
      _normalize_path (posixEnv "/c") "/a" := by decide

/-- C6 (amended): on a POSIX platform normalisation is not idempotent under
reparsing — `normalize(normalize(p))` equals `normalize(p)` with one extra
line terminator appended; idempotence holds only after stripping the
terminator before reparsing: `normalize(stripLastChar(normalize(p))) =
normalize(p)`. -/
theorem normalize_idempotent_mod_terminator (cwd p : String)
    (h : isAbsolutePosix cwd = true) :
    _normalize_path (posixEnv cwd) (_normalize_path (posixEnv cwd) p) =
      _normalize_path (posixEnv cwd) p ++ "\n" ∧
    _normalize_path (posixEnv cwd) (stripLastChar (_normalize_path (posixEnv cwd) p)) =
      _normalize_path (posixEnv cwd) p := by
  have hn : ∀ q, _normalize_path (posixEnv cwd) q = posixAbsolute cwd q ++ "\n" :=
    fun q => rfl
  have habs : isAbsolutePosix (posixAbsolute cwd p) = true := posixAbsolute_isAbs cwd p h
  constructor
  · rw [hn, hn, posixAbsolute_of_isAbs _ _ (isAbs_append _ _ habs)]
  · have hstrip : stripLastChar (posixAbsolute cwd p ++ "\n") = posixAbsolute cwd p := by
      unfold stripLastChar
      rw [String.data_append, show ("\n" : String).data = ['\n'] from rfl,
        List.dropLast_concat]
    rw [hn p, hstrip, hn, posixAbsolute_of_isAbs _ _ habs]

/-- C6 witness: for the concrete relative path `"a"` under working directory
`"/c"`, stripping the terminator before reparsing restores idempotence. -/
theorem normalize_idempotent_mod_terminator_witness :
    (isAbsolutePosix "/c" = true) ∧
    _normalize_path (posixEnv "/c") (stripLastChar (_normalize_path (posixEnv "/c") "a")) =
      _normalize_path (posixEnv "/c") "a" :=
  ⟨by decide, (normalize_idempotent_mod_terminator "/c" "a" (by decide)).2⟩

/-! ### Lemmas about the round-robin slice -/

theorem sliceAuxC_getElem? (step : Nat) (hstep : 1 ≤ step) :
    ∀ (l : List α) (k j : Nat), (sliceAuxC l step k)[j]? = l[k + j * step]? := by
  intro l
  induction l with
  | nil => intro k j; simp [sliceAuxC]
  | cons a rest ih =>
    intro k j
    cases k with
    | zero =>
      cases j with
      | zero => simp [sliceAuxC]
      | succ j =>
        show (a :: sliceAuxC rest step (step - 1))[j + 1]? = (a :: rest)[0 + (j + 1) * step]?
        rw [List.getElem?_cons_succ, ih (step - 1) j]
        have h1 : (0 : Nat) + (j + 1) * step = ((step - 1) + j * step) + 1 := by
          cases step with
          | zero => omega
          | succ s => ring_nf; omega
        rw [h1, List.getElem?_cons_succ]
    | succ k =>
      show (sliceAuxC rest step k)[j]? = (a :: rest)[k + 1 + j * step]?
      rw [ih k j]
      have h1 : k + 1 + j * step = (k + j * step) + 1 := by omega
      rw [h1, List.getElem?_cons_succ]

theorem sliceAuxC_subset (step : Nat) :
    ∀ (l : List α) (k : Nat) (x : α), x ∈ sliceAuxC l step k → x ∈ l := by
  intro l
  induction l with
  | nil => intro k x h; simp [sliceAuxC] at h
  | cons a rest ih =>
    intro k x h
    cases k with
    | zero =>
      rcases List.mem_cons.mp h with h' | h'
      · exact h' ▸ List.mem_cons_self a rest
      · exact List.mem_cons_of_mem a (ih _ _ h')
    | succ k =>
      exact List.mem_cons_of_mem a (ih _ _ h)

theorem mem_planChunks_getD (l : List String) (n i : Nat) (x : String)
    (h : x ∈ (planChunks l n)[i]?.getD []) : x ∈ l := by
  cases hc : (planChunks l n)[i]? with
  | none => rw [hc] at h; simp at h
  | some c =>
    rw [hc] at h
    simp only [Option.getD_some] at h
    have : ∃ k, c = islice l k n := by
      unfold planChunks at hc
      rw [List.getElem?_map] at hc
      cases hr : (List.range n)[i]? with
      | none => rw [hr] at hc; simp at hc
      | some k => rw [hr] at hc; simp at hc; exact ⟨k, hc.symm⟩
    obtain ⟨k, rfl⟩ := this
    exact sliceAuxC_subset n l k x h

/-- C3: the partition plan computed on source lines 107-108 is a pure function
of the subdirectory listing and the worker count (hence deterministic), yields
exactly `n` partitions, and assigns round-robin by index: partition `i` holds
precisely the listing's elements at positions `i, i + n, i + 2n, …`, in that
order. -/
theorem planChunks_roundRobin (l : List String) (n : Nat) (hn : 1 ≤ n) :
    (planChunks l n).length = n ∧
    ∀ i, i < n → ∀ j, ((planChunks l n)[i]?.getD [])[j]? = l[i + j * n]? := by
  constructor
  · simp [planChunks]
  · intro i hi j
    have h1 : (planChunks l n)[i]? = some (islice l i n) := by
      unfold planChunks
      rw [List.getElem?_map]
      simp [List.getElem?_range, hi]
    rw [h1]
    simp only [Option.getD_some]
    exact sliceAuxC_getElem? n hn l i j

/-- C3 witness: with five subdirectories and two workers, partition 1's
element 1 is the subdirectory at position `1 + 1*2 = 3` of the listing. -/
theorem planChunks_roundRobin_witness :
    (1 ≤ 2) ∧ (1 < 2) ∧
    ((planChunks ["a", "b", "c", "d", "e"] 2)[1]?.getD [])[1]? =
      ["a", "b", "c", "d", "e"][1 + 1 * 2]? :=
  ⟨by decide, by decide,
    (planChunks_roundRobin ["a", "b", "c", "d", "e"] 2 (by decide)).2 1 (by decide) 1⟩

/-! ### Lemmas about the per-worker scan and its seen-set -/

theorem scanEntries_seen (env : Env) :
    ∀ (es seen : List String) (x : String),
      x ∈ (scanEntries env es seen).2 ↔ x ∈ (scanEntries env es seen).1 ∨ x ∈ seen := by
  intro es
  induction es with
  | nil => intro seen x; simp [scanEntries]
  | cons e rest ih =>
    intro seen x
    simp only [scanEntries]
    split_ifs with h1 h2
    · exact ih seen x
    · constructor
      · intro hx
        rcases (ih (_normalize_path env e :: seen) x).mp hx with h | h
        · exact Or.inl (List.mem_cons_of_mem _ h)
        · rcases List.mem_cons.mp h with h | h
          · exact Or.inl (h ▸ List.mem_cons_self _ _)
          · exact Or.inr h
      · intro hx
        apply (ih (_normalize_path env e :: seen) x).mpr
        rcases hx with h | h
        · rcases List.mem_cons.mp h with h | h
          · exact Or.inr (h ▸ List.mem_cons_self _ _)
          · exact Or.inl h
        · exact Or.inr (List.mem_cons_of_mem _ h)
    · exact ih seen x

theorem scanEntries_nodup (env : Env) :
    ∀ (es seen : List String), (scanEntries env es seen).1.Nodup ∧
      ∀ x ∈ (scanEntries env es seen).1, x ∉ seen := by
  intro es
  induction es with
  | nil => intro seen; constructor <;> simp [scanEntries]
  | cons e rest ih =>
    intro seen
    simp only [scanEntries]
    split_ifs with h1 h2
    · exact ih seen
    · obtain ⟨hnd, hns⟩ := ih (_normalize_path env e :: seen)
      constructor
      · refine List.nodup_cons.mpr ⟨?_, hnd⟩
        intro hmem
        exact hns _ hmem (List.mem_cons_self _ _)
      · intro x hx
        rcases List.mem_cons.mp hx with h | h
        · exact h ▸ h2
        · exact fun hs => hns x h (List.mem_cons_of_mem _ hs)
    · exact ih seen

theorem scanEntries_origin (env : Env) :
    ∀ (es seen : List String) (x : String), x ∈ (scanEntries env es seen).1 →
      ∃ e, e ∈ es ∧ _is_accessible env e = true ∧ x = _normalize_path env e := by
  intro es
  induction es with
  | nil => intro seen x h; simp [scanEntries] at h
  | cons e rest ih =>
    intro seen x h
    simp only [scanEntries] at h
    split_ifs at h with h1 h2
    · obtain ⟨e', he', ha', hx'⟩ := ih seen x h
      exact ⟨e', List.mem_cons_of_mem _ he', ha', hx'⟩
    · rcases List.mem_cons.mp h with h' | h'
      · exact ⟨e, List.mem_cons_self _ _, h1, h'⟩
      · obtain ⟨e', he', ha', hx'⟩ := ih _ x h'
        exact ⟨e', List.mem_cons_of_mem _ he', ha', hx'⟩
    · obtain ⟨e', he', ha', hx'⟩ := ih seen x h
      exact ⟨e', List.mem_cons_of_mem _ he', ha', hx'⟩

theorem scan_directory_seen (env : Env) (d : String) (seen : List String) (x : String) :
    x ∈ (_scan_directory env d seen).2 ↔ x ∈ (_scan_directory env d seen).1 ∨ x ∈ seen := by
  unfold _scan_directory
  split
  · simp
  · exact scanEntries_seen env _ seen x

theorem scan_directory_nodup (env : Env) (d : String) (seen : List String) :
    (_scan_directory env d seen).1.Nodup ∧ ∀ x ∈ (_scan_directory env d seen).1, x ∉ seen := by
  unfold _scan_directory
  split
  · constructor <;> simp
  · exact scanEntries_nodup env _ seen

theorem scan_directory_origin (env : Env) (d : String) (seen : List String) (x : String)
    (h : x ∈ (_scan_directory env d seen).1) :
    ∃ e, e ∈ env.rglob d ∧ _is_accessible env e = true ∧ x = _normalize_path env e := by
  unfold _scan_directory at h
  split at h
  · simp at h
  · exact scanEntries_origin env _ seen x h

theorem processDirs_seen_mono (env : Env) :
    ∀ (dirs seen : List String) (x : String), x ∈ seen → x ∈ (processDirs env dirs seen).2 := by
  intro dirs
  induction dirs with
  | nil => intro seen x h; exact h
  | cons d rest ih =>
    intro seen x h
    exact ih _ x ((scan_directory_seen env d seen x).mpr (Or.inr h))

theorem processDirs_nodup (env : Env) :
    ∀ (dirs seen : List String), (processDirs env dirs seen).1.Nodup ∧
      ∀ x ∈ (processDirs env dirs seen).1, x ∉ seen := by
  intro dirs
  induction dirs with
  | nil => intro seen; constructor <;> simp [processDirs]
  | cons d rest ih =>
    intro seen
    simp only [processDirs]
    obtain ⟨hd1, hd2⟩ := scan_directory_nodup env d seen
    obtain ⟨hr1, hr2⟩ := ih (_scan_directory env d seen).2
    constructor
    · refine List.Nodup.append hd1 hr1 ?_
      intro x hx1 hx2
      exact hr2 x hx2 ((scan_directory_seen env d seen x).mpr (Or.inl hx1))
    · intro x hx
      rcases List.mem_append.mp hx with h | h
      · exact hd2 x h
      · exact fun hs =>
          hr2 x h ((scan_directory_seen env d seen x).mpr (Or.inr hs))

theorem processDirs_origin (env : Env) :
    ∀ (dirs seen : List String) (x : String), x ∈ (processDirs env dirs seen).1 →
      ∃ d, d ∈ dirs ∧ ∃ e, e ∈ env.rglob d ∧ _is_accessible env e = true ∧
        x = _normalize_path env e := by
  intro dirs
  induction dirs with
  | nil => intro seen x h; simp [processDirs] at h
  | cons d rest ih =>
    intro seen x h
    simp only [processDirs] at h
    rcases List.mem_append.mp h with h' | h'
    · obtain ⟨e, he, ha, hx⟩ := scan_directory_origin env d seen x h'
      exact ⟨d, List.mem_cons_self _ _, e, he, ha, hx⟩
    · obtain ⟨d', hd', rest'⟩ := ih _ x h'
      exact ⟨d', List.mem_cons_of_mem _ hd', rest'⟩

/-- C4: within the record sequence one worker writes to its temp file, no two
records are textually identical — each normalised path enters the worker's
seen-set at first emission (lines 54-56) and later occurrences are suppressed,
even when `rglob` yields aliases normalising to the same record, and across
all directories of the worker's partition. -/
theorem workerRecords_nodup (env : Env) (dirs : List String) (i : Nat) :
    (workerRecords env dirs i).Nodup := by
  unfold workerRecords _process_chunk
  have h := (processDirs_nodup env dirs []).1
  split
  · exact List.Nodup.sublist (List.take_sublist _ _) h
  · exact h

/-! ### Lemmas about the merge loop -/

theorem readChunksFuel_flatten (chunkSize : Nat) (hcs : 1 ≤ chunkSize) :
    ∀ (fuel : Nat) (bytes : List Char), bytes.length ≤ fuel →
      (readChunksFuel fuel chunkSize bytes).flatten = bytes := by
  intro fuel
  induction fuel with
  | zero =>
    intro bytes hb
    have hb0 : bytes = [] := List.eq_nil_of_length_eq_zero (Nat.le_zero.mp hb)
    subst hb0
    simp [readChunksFuel]
  | succ n ih =>
    intro bytes hb
    simp only [readChunksFuel]
    split_ifs with h
    · rcases List.take_eq_nil_iff.mp h with h' | h'
      · omega
      · simp [h']
    · have hbne : bytes ≠ [] := by
        intro hb0
        subst hb0
        simp at h
      have hlen : 1 ≤ bytes.length := List.length_pos.mpr hbne
      rw [List.flatten_cons, ih (bytes.drop chunkSize) ?_, List.take_append_drop]
      rw [List.length_drop]
      omega

theorem readChunks_flatten (chunkSize : Nat) (hcs : 1 ≤ chunkSize) (bytes : List Char) :
    (readChunks chunkSize bytes).flatten = bytes :=
  readChunksFuel_flatten chunkSize hcs bytes.length bytes (Nat.le_refl _)

theorem mergeGo_ok (chunkSize : Nat) (hcs : 1 ≤ chunkSize)
    (contents : String → Option (List Char)) :
    ∀ (tfs : List String) (acc bs : List Char),
      mergeGo chunkSize contents tfs acc = (bs, none) →
      bs = acc ++ (tfs.filterMap contents).flatten := by
  intro tfs
  induction tfs with
  | nil =>
    intro acc bs h
    simp only [mergeGo, Prod.mk.injEq] at h
    simp [h.1.symm]
  | cons tf rest ih =>
    intro acc bs h
    simp only [mergeGo] at h
    split at h
    · next hc =>
      rw [List.filterMap_cons_none hc]
      exact ih acc bs h
    · next bytes hc =>
      split_ifs at h with hemp
      · simp at h
      · rw [List.filterMap_cons_some hc, List.flatten_cons]
        rw [ih _ bs h, readChunks_flatten chunkSize hcs bytes, List.append_assoc]

/-! ### Lemmas about association-list lookup and the cleanup pass -/

theorem lookup_mem {β : Type} (k : String) (v : β) :
    ∀ (l : List (String × β)), l.lookup k = some v → (k, v) ∈ l := by
  intro l
  induction l with
  | nil => intro h; simp [List.lookup] at h
  | cons p rest ih =>
    intro h
    obtain ⟨k', v'⟩ := p
    simp only [List.lookup] at h
    cases hk : (k == k') with
    | true =>
      rw [hk] at h
      simp only at h
      have hke : k = k' := eq_of_beq hk
      subst hke
      injection h with h'
      subst h'
      exact List.mem_cons_self _ _
    | false =>
      rw [hk] at h
      simp only at h
      exact List.mem_cons_of_mem _ (ih h)

theorem lookup_ne_none_of_key {β : Type} (k : String) (v : β) :
    ∀ (l : List (String × β)), (k, v) ∈ l → l.lookup k ≠ none := by
  intro l
  induction l with
  | nil => intro h; simp at h
  | cons p rest ih =>
    intro h
    obtain ⟨k', v'⟩ := p
    simp only [List.lookup]
    cases hk : (k == k') with
    | true => simp
    | false =>
      simp only
      rcases List.mem_cons.mp h with h' | h'
      · have : k = k' := congrArg Prod.fst h'
        subst this
        simp at hk
      · exact ih h'

theorem cleanupTempFiles_cons (f : String → Bool) (tf : String) (rest : List String)
    (ex : String → Bool) :
    cleanupTempFiles f (tf :: rest) ex =
      cleanupTempFiles f rest
        (if ex tf && !f tf then (fun p => if p = tf then false else ex p) else ex) := rfl

theorem cleanup_false_mono (f : String → Bool) :
    ∀ (tfs : List String) (ex : String → Bool) (p : String), ex p = false →
      cleanupTempFiles f tfs ex p = false := by
  intro tfs
  induction tfs with
  | nil => intro ex p h; exact h
  | cons tf rest ih =>
    intro ex p h
    rw [cleanupTempFiles_cons]
    apply ih
    by_cases hc : (ex tf && !f tf) = true
    · rw [if_pos hc]
      by_cases hp : p = tf
      · simp [hp]
      · simp [hp, h]
    · rw [if_neg hc]
      exact h

theorem cleanup_deletes (f : String → Bool) :
    ∀ (tfs : List String) (ex : String → Bool) (tf : String), tf ∈ tfs → f tf = false →
      cleanupTempFiles f tfs ex tf = false := by
  intro tfs
  induction tfs with
  | nil => intro ex tf h _; simp at h
  | cons t rest ih =>
    intro ex tf hmem hf
    rw [cleanupTempFiles_cons]
    rcases List.mem_cons.mp hmem with h | h
    · subst h
      by_cases he : ex tf = true
      · have hcond : (ex tf && !f tf) = true := by simp [he, hf]
        rw [if_pos hcond]
        exact cleanup_false_mono f rest _ tf (by simp)
      · have he' : ex tf = false := Bool.eq_false_iff.mpr he
        have hcond : (ex tf && !f tf) = false := by simp [he']
        rw [hcond]
        simp only [Bool.false_eq_true, if_false]
        exact cleanup_false_mono f rest ex tf he'
    · apply ih _ tf h hf

/-! ### Claim theorems about the scan pipeline -/

/-- C7: on every exit path of `scan` — success, a worker exception, or the
merge raising — every temp file recorded by the run whose `unlink` does not
raise is gone afterwards; a raising `unlink` for one file is caught (line
85-86) and does not prevent the remaining files from being deleted, which the
statement reflects by constraining only the one file's `unlink` behaviour. -/
theorem scan_cleanup_deletes_temp_files (env : Env) (tf : String)
    (h1 : tf ∈ (scan env).tempFilesCreated) (h2 : env.unlinkFails tf = false) :
    (scan env).finalTempExists tf = false := by
  unfold scan at h1 ⊢
  split_ifs at h1 ⊢ with hempty hfail
  · simp at h1
  · exact cleanup_deletes env.unlinkFails (scanTempFiles env) _ tf h1 h2
  · exact cleanup_deletes env.unlinkFails (scanTempFiles env) _ tf h1 h2

/-- C7 witness: in `envC7` the `unlink` of temp file 0 raises while temp
file 1's does not; temp file 1 is nevertheless deleted. -/
theorem scan_cleanup_deletes_temp_files_witness :
    tempPath "/tmp" 1 ∈ (scan envC7).tempFilesCreated ∧
    envC7.unlinkFails (tempPath "/tmp" 1) = false ∧
    (scan envC7).finalTempExists (tempPath "/tmp" 1) = false :=
  ⟨by decide, by decide,
    scan_cleanup_deletes_temp_files envC7 (tempPath "/tmp" 1) (by decide) (by decide)⟩

/-- C8: when the root has zero accessible immediate subdirectories, `scan`
warns (line 104) and returns normally without opening the output file,
dispatching any worker, recording any temp file, or even entering the
temp-file context manager. -/
theorem scan_no_subdirs_noop (env : Env) (h : _get_subdirectories env = []) :
    (scan env).warned = true ∧ (scan env).result = Except.ok () ∧
    (scan env).outputWritten = none ∧ (scan env).workersDispatched = 0 ∧
    (scan env).tempFilesCreated = [] ∧ (scan env).tempSubdirMade = none := by
  have he : (_get_subdirectories env).isEmpty = true := by simp [h]
  simp [scan, he]

/-- C8 witness: `envC8`'s root has no children at all. -/
theorem scan_no_subdirs_noop_witness :
    _get_subdirectories envC8 = [] ∧
    ((scan envC8).warned = true ∧ (scan envC8).result = Except.ok () ∧
     (scan envC8).outputWritten = none ∧ (scan envC8).workersDispatched = 0 ∧
     (scan envC8).tempFilesCreated = [] ∧ (scan envC8).tempSubdirMade = none) :=
  ⟨by decide, scan_no_subdirs_noop envC8 (by decide)⟩

/-- C9: evaluation of the run on `envC9`.  The run does create the dedicated
subdirectory `<tempdir>/directory_scanner` (line 74-75), and temp files are
named deterministically by partition index (`scan_0`, line 115) — but the
temp file is placed directly in the platform temp directory, not under the
dedicated subdirectory, which is never used. -/
theorem tempFiles_not_under_dedicated_subdir :
    (scan envC9).tempSubdirMade = some (scannerTempSubdir "/tmp") ∧
    scannerTempSubdir "/tmp" = "/tmp/directory_scanner" ∧
    (scan envC9).tempFilesCreated = [tempPath "/tmp" 0] ∧
    tempPath "/tmp" 0 = "/tmp/scan_0" ∧
    pathIsUnder (scannerTempSubdir "/tmp") (tempPath "/tmp" 0) = false :=
  ⟨rfl, rfl, rfl, rfl, by decide⟩

theorem scanFilesAfterWorkers_ne_none (env : Env) (i : Nat)
    (h : i < (scanChunks env).length) :
    scanFilesAfterWorkers env (tempPath env.tempDir i) ≠ none := by
  unfold scanFilesAfterWorkers
  apply lookup_ne_none_of_key (tempPath env.tempDir i)
    (recordBytes (workerRecords env ((scanChunks env)[i]?.getD []) i))
  exact List.mem_map_of_mem _ (List.mem_range.mpr h)

/-- C10: in every run that dispatches workers, each partition's temp file
exists once the workers have settled — in particular by the time merging
begins — including the temp files of empty partitions, because
`open(temp_file, 'wb')` on line 63 creates the file before any record is
written. -/
theorem scan_temp_files_exist_after_workers (env : Env) (i : Nat)
    (h : i < (scan env).workersDispatched) :
    (scan env).filesAfterWorkers (tempPath env.tempDir i) ≠ none := by
  unfold scan at h ⊢
  split_ifs at h ⊢ with hempty hfail
  · simp at h
  · exact scanFilesAfterWorkers_ne_none env i h
  · exact scanFilesAfterWorkers_ne_none env i h

/-- C10 witness: `envC10` has one subdirectory and two workers, so partition 1
is empty; its temp file nevertheless exists (with zero bytes). -/
theorem scan_temp_files_exist_after_workers_witness :
    1 < (scan envC10).workersDispatched ∧
    (scan envC10).filesAfterWorkers (tempPath envC10.tempDir 1) ≠ none ∧
    (scan envC10).filesAfterWorkers (tempPath "/tmp" 1) = some [] :=
  ⟨by decide, scan_temp_files_exist_after_workers envC10 1 (by decide), rfl⟩

theorem recordBytes_append (xs ys : List String) :
    recordBytes (xs ++ ys) = recordBytes xs ++ recordBytes ys := by
  simp [recordBytes]

theorem flatten_records {P : String → Prop} :
    ∀ (L : List (List Char)),
      (∀ b ∈ L, ∃ recs : List String, b = recordBytes recs ∧ ∀ r ∈ recs, P r) →
      ∃ records : List String, L.flatten = recordBytes records ∧ ∀ r ∈ records, P r := by
  intro L
  induction L with
  | nil => intro _; exact ⟨[], by simp [recordBytes], by simp⟩
  | cons b rest ih =>
    intro h
    obtain ⟨recs, hb, hP⟩ := h b (List.mem_cons_self _ _)
    obtain ⟨records, hr, hPr⟩ := ih (fun b' hb' => h b' (List.mem_cons_of_mem _ hb'))
    refine ⟨recs ++ records, ?_, ?_⟩
    · rw [List.flatten_cons, hb, hr, recordBytes_append]
    · intro r hr'
      rcases List.mem_append.mp hr' with h' | h'
      · exact hP r h'
      · exact hPr r h'

/-- C1: every record whose bytes reach the final output file of a successful
run was yielded for an entry that passed `_is_accessible` at scan time — an
entry for which the read-permission probe reports no read access (i.e. for
which `_is_accessible` returns `False`, the probe having raised) is excluded
from the output. -/
theorem scan_output_from_accessible_entries (env : Env) (bs : List Char)
    (hcs : 1 ≤ env.chunkSize)
    (hok : (scan env).result = Except.ok ())
    (hout : (scan env).outputWritten = some bs) :
    ∃ records : List String, bs = recordBytes records ∧
      ∀ r ∈ records, ∃ d, d ∈ _get_subdirectories env ∧
        ∃ e, e ∈ env.rglob d ∧ _is_accessible env e = true ∧
          r = _normalize_path env e := by
  unfold scan at hok hout
  by_cases hempty : (_get_subdirectories env).isEmpty = true
  · rw [if_pos hempty] at hout
    exact absurd hout (by simp)
  · rw [if_neg hempty] at hok hout
    by_cases hfail : scanAnyWorkerFailed env = true
    · rw [if_pos hfail] at hout
      exact absurd hout (by simp)
    · rw [if_neg hfail] at hok hout
      dsimp only at hok hout
      have hbs : (scanMerge env).1 = bs := Option.some.inj hout
      have hnone : (scanMerge env).2 = none := by
        cases hm : (scanMerge env).2 with
        | none => rfl
        | some e => rw [hm] at hok; cases hok
      have hpair : scanMerge env = (bs, none) := by
        rw [← hbs, ← hnone]
      have hsm : mergeGo env.chunkSize (scanFilesAfterWorkers env) (scanTempFiles env) []
          = (bs, none) := hpair
      have hflat := mergeGo_ok env.chunkSize hcs (scanFilesAfterWorkers env)
        (scanTempFiles env) [] bs hsm
      rw [List.nil_append] at hflat
      rw [hflat]
      apply flatten_records
      intro b hb
      obtain ⟨tf, htf, hcf⟩ := List.mem_filterMap.mp hb
      have hpairmem := lookup_mem tf b _ hcf
      obtain ⟨i, hi, hgi⟩ := List.mem_map.mp hpairmem
      have hb2 : b = recordBytes (workerRecords env ((scanChunks env)[i]?.getD []) i) :=
        (congrArg Prod.snd hgi).symm
      refine ⟨workerRecords env ((scanChunks env)[i]?.getD []) i, hb2, ?_⟩
      intro r hrmem
      have hrp : r ∈ _process_chunk env ((scanChunks env)[i]?.getD []) := by
        unfold workerRecords at hrmem
        split at hrmem
        · exact List.mem_of_mem_take hrmem
        · exact hrmem
      obtain ⟨d, hd, e, he, ha, hre⟩ := processDirs_origin env _ [] r hrp
      exact ⟨d, mem_planChunks_getD (_get_subdirectories env) (numProcs env) i d hd,
        e, he, ha, hre⟩

/-- C1 witness: in `envC1` the single worker scans `/r/a` and yields
`/r/a/x`; the successful run's output bytes decompose into records that all
originate from accessible entries. -/
theorem scan_output_from_accessible_entries_witness :
    (1 ≤ envC1.chunkSize ∧ (scan envC1).result = Except.ok () ∧
     (scan envC1).outputWritten = some (recordBytes ["/r/a/x\n"])) ∧
    (∃ records : List String, recordBytes ["/r/a/x\n"] = recordBytes records ∧
      ∀ r ∈ records, ∃ d, d ∈ _get_subdirectories envC1 ∧
        ∃ e, e ∈ envC1.rglob d ∧ _is_accessible envC1 e = true ∧
          r = _normalize_path envC1 e) :=
  ⟨⟨by decide, rfl, rfl⟩,
    scan_output_from_accessible_entries envC1 (recordBytes ["/r/a/x\n"])
      (by decide) rfl rfl⟩

/-- C2: evaluation at the failing input.  In `envC2` the lone worker scans an
accessible empty subdirectory and writes zero bytes, so its temp file exists
with zero bytes; the merge then aborts — `mmap.mmap(fileno, 0)` cannot map an
empty file — instead of concatenating the (empty) contents, and the whole
`scan` call fails.  Also shown directly on `_merge_files`: an existing
zero-byte temp file aborts the merge. -/
theorem merge_raises_on_empty_temp_file :
    (_merge_files 8192 (fun _ => some []) ["/tmp/scan_0"]).2 = some MergeErr.mmapEmpty ∧
    (scan envC2).filesAfterWorkers (tempPath "/tmp" 0) = some [] ∧
    (scan envC2).result = Except.error ScanErr.mergeFailed ∧
    (scan envC2).outputWritten = some [] :=
  ⟨rfl, rfl, rfl, rfl⟩
